import Mathlib

/-!
# Verification of the todo-list model/controller/view (west352/todo-list)

Shallow embedding of `src/script.js`.  The mutable array `model.items` is
embedded as a `List Item`; each JavaScript method becomes a Lean function
on that list.  Operations that can raise a runtime fault (indexing a
non-existent array position and then dereferencing `undefined`) return
`Option`, with `none` standing for the fault; `Array.prototype.splice`
never throws, so `deleteItem` is total.
-/

namespace Todo

/-- A todo item: `{ name: string, done: boolean }` (script.js, data model). -/
structure Item where
  name : String
  done : Bool
deriving Repr, DecidableEq

/-- Result record of `model.countItems`. -/
structure Counts where
  numItems : Nat
  numDoneItems : Nat
deriving Repr, DecidableEq

/-- Model operation `countItems` (script.js lines 36-46): `numItems = items.length`,
then a `forEach` pass incrementing `numDoneItems` whenever `item.done === true`. -/
def countItems (items : List Item) : Counts :=
  { numItems := items.length
    numDoneItems := items.foldl (fun acc item => if item.done = true then acc + 1 else acc) 0 }

/-- Model operation `createItem` (lines 54-57): push `{name, done:false}` at the end. -/
def createItem (items : List Item) (name : String) : List Item :=
  items ++ [{ name := name, done := false }]

/-- Model operation `changeItemName` (lines 64-66): `this.items[index].name = name`.
If `index` is outside `[0, length)`, `this.items[index]` is `undefined` and
assigning to `.name` throws a `TypeError`; that fault is `none`. -/
def changeItemName (items : List Item) (index : Int) (name : String) : Option (List Item) :=
  if h : 0 ≤ index ∧ index.toNat < items.length then
    some (items.set index.toNat { items.get ⟨index.toNat, h.2⟩ with name := name })
  else
    none

/-- Model operation `deleteItem` (lines 72-74): `this.items.splice(index, 1)`.
`splice` never throws: a negative start is clamped to `max(length + start, 0)`,
a start beyond the length is clamped to `length` (deleting nothing). -/
def deleteItem (items : List Item) (index : Int) : List Item :=
  let start : Nat :=
    if index < 0 then (max (items.length + index) 0).toNat
    else min index.toNat items.length
  items.take start ++ items.drop (start + 1)

/-- Model operation `deleteAllItems` (lines 79-81): `splice(0, length)` empties the list. -/
def deleteAllItems (_items : List Item) : List Item := []

/-- Model operation `toggleItem` (lines 89-91): `this.items[index].done = !this.items[index].done`.
Out of bounds, reading `.done` of `undefined` throws; that fault is `none`. -/
def toggleItem (items : List Item) (index : Int) : Option (List Item) :=
  if h : 0 ≤ index ∧ index.toNat < items.length then
    let it := items.get ⟨index.toNat, h.2⟩
    some (items.set index.toNat { it with done := !it.done })
  else
    none

/-- One step of the `forEach((item, index) => this.toggleItem(index))` loop in
`toggleAllItems`: toggle position `i` in place (indices fed by `forEach` are
always in bounds, so the fallback branch is never taken there). -/
def toggleAt (items : List Item) (i : Nat) : List Item :=
  match items.get? i with
  | some it => items.set i { it with done := !it.done }
  | none => items

/-- Model operation `toggleAllItems` (lines 98-109): destructure `countItems()`; if
`numItems === numDoneItems || numDoneItems === 0`, call `toggleItem(index)`
for each index via `forEach`; otherwise set `done = true` on each item that
is not done. -/
def toggleAllItems (items : List Item) : List Item :=
  let c := countItems items
  if c.numItems = c.numDoneItems ∨ c.numDoneItems = 0 then
    (List.range items.length).foldl toggleAt items
  else
    items.map (fun it => if !it.done then { it with done := true } else it)

/-- Flip one item's done flag (the effect of `toggleItem` on a single record). -/
def flipDone (it : Item) : Item := { it with done := !it.done }

/-- Branch condition of `toggleAllItems` as the specification phrases it:
every item has the same done flag, or no item is done. -/
def sameDoneOrNoneDone (items : List Item) : Bool :=
  (items.all (fun it => it.done) || items.all (fun it => !it.done))
    || items.all (fun it => !it.done)

/-! ## View (rendering) -/

/-- The parts of one rendered `li` element that depend on the model item
(`view.displayTodoItems`, lines 320-361): the element's `id` attribute (set to
the loop index `i`), the checkbox's `checked` flag, the label text and its
strikethrough class, and the hidden edit input's pre-populated value. -/
structure RenderedItem where
  id : Nat
  checked : Bool
  labelText : String
  strikethrough : Bool
  inputValue : String
deriving Repr, DecidableEq

/-- Build the rendered representation of item `it` at loop index `i`:
checkbox checked iff done, label shows the name (struck through iff done),
edit input pre-populated with the name. -/
def renderItem (i : Nat) (it : Item) : RenderedItem :=
  { id := i
    checked := it.done
    labelText := it.name
    strikethrough := it.done
    inputValue := it.name }

/-- Result of a full render: the toggle-all button's visibility and the
children of the `ul` container, first child first. -/
structure RenderedView where
  toggleAllVisible : Bool
  listItems : List RenderedItem
deriving Repr, DecidableEq

/-- View operation `displayTodoItems` (lines 283-362): show the toggle-all button iff
the list is non-empty, clear the `ul`, then `for (i = 0; i < length; i++)`
build the `li` for item `i` and insert it via
`insertBefore(listElement, todoListUL.childNodes[0])`, i.e. prepend it as the
new first child (appending when the container is still empty). -/
def displayTodoItems (items : List Item) : RenderedView :=
  { toggleAllVisible := items.length > 0
    listItems := items.enum.foldl (fun ul p => renderItem p.1 p.2 :: ul) [] }

/-! ## Controller (`updateItemNameOnKeyUp`) -/

/-- The JavaScript primitive values compared by `===` in
`updateItemNameOnKeyUp`: `event.code` is a DOM string, while `ENTER_KEY` and
`ESC_KEY` are numbers. -/
inductive JSValue where
  | str (s : String)
  | num (n : Int)
deriving Repr, DecidableEq

/-- JavaScript strict equality `===` on primitives: operands of different
types are never equal (no coercion). -/
def strictEq : JSValue → JSValue → Bool
  | .str a, .str b => a == b
  | .num a, .num b => a == b
  | _, _ => false

/-- Constant `ENTER_KEY = 13` (script.js line 2): a number. -/
def ENTER_KEY : JSValue := .num 13

/-- Constant `ESC_KEY = 27` (script.js line 3): a number. -/
def ESC_KEY : JSValue := .num 27

/-- A keyup event as `controller.updateItemNameOnKeyUp` reads it:
`event.code` (per the DOM, `KeyboardEvent.code` is a string such as
`"Enter"` or `"Escape"`), `event.target.value` (the edit input's content),
and `event.target.parentElement.id` (the item's index at last render). -/
structure KeyUpEvent where
  code : String
  value : String
  parentId : Nat
deriving Repr, DecidableEq

/-- Observable outcome of the keyup handler: the model's items, the value
displayed in the edit input, and whether a full refresh was triggered. -/
structure KeyUpResult where
  items : List Item
  inputValue : String
  refreshed : Bool
deriving Repr, DecidableEq

/-- Controller handler `updateItemNameOnKeyUp` (lines 148-158):
`if (event.code === ENTER_KEY && newName != "")` commit the rename (via
`controller.changeItemName`, which calls `model.changeItemName` then
refreshes); `else if (event.code === ESC_KEY)` set the input back to
`model.items[id].name` and refresh; otherwise do nothing.  Faults (out-of-
bounds accesses inside the branches) are `none`. -/
def updateItemNameOnKeyUp (ev : KeyUpEvent) (items : List Item) : Option KeyUpResult :=
  let newName := ev.value
  if strictEq (.str ev.code) ENTER_KEY && newName != "" then
    (changeItemName items ev.parentId newName).map (fun l => ⟨l, newName, true⟩)
  else if strictEq (.str ev.code) ESC_KEY then
    (items[ev.parentId]?).map (fun it => ⟨items, it.name, true⟩)
  else
    some ⟨items, ev.value, false⟩

end Todo

namespace Todo

theorem countItems_numDone (items : List Item) :
    (countItems items).numDoneItems = items.countP (fun it => it.done) := by
  have h : ∀ (n : Nat),
      items.foldl (fun acc item => if item.done = true then acc + 1 else acc) n
        = n + items.countP (fun it => it.done) := by
    induction items with
    | nil => intro n; simp
    | cons x xs ih =>
      intro n
      by_cases hx : x.done = true
      · simp [List.countP_cons, hx, ih, Nat.add_comm, Nat.add_assoc, Nat.add_left_comm]
      · simp [List.countP_cons, hx, ih]
  simpa using h 0

theorem toggleAt_length (items : List Item) (i : Nat) :
    (toggleAt items i).length = items.length := by
  unfold toggleAt
  cases h : items[i]? with
  | none => simp [h]
  | some it => simp [h]

theorem toggleAt_getElem? (items : List Item) (i j : Nat) :
    (toggleAt items i)[j]? =
      if j = i then items[j]?.map flipDone else items[j]? := by
  unfold toggleAt
  cases h : items[i]? with
  | none =>
    by_cases hji : j = i
    · subst hji; simp [h]
    · simp [h, hji]
  | some it =>
    by_cases hji : j = i
    · subst hji
      have hlt : j < items.length := by
        by_contra hge
        simp [List.getElem?_eq_none (Nat.le_of_not_lt hge)] at h
      simp [h, List.getElem?_set_self hlt, flipDone]
    · simp [h, List.getElem?_set_ne (fun he => hji he.symm), hji]

theorem foldRange_toggleAt_length (n : Nat) (items : List Item) :
    ((List.range n).foldl toggleAt items).length = items.length := by
  induction n generalizing items with
  | zero => simp
  | succ m ih =>
    rw [List.range_succ, List.foldl_append]
    simp [toggleAt_length, ih]

theorem foldRange_toggleAt_getElem? (n : Nat) (items : List Item) (j : Nat) :
    ((List.range n).foldl toggleAt items)[j]? =
      if j < n then items[j]?.map flipDone else items[j]? := by
  induction n generalizing j with
  | zero => simp
  | succ m ih =>
    rw [List.range_succ, List.foldl_append]
    simp only [List.foldl_cons, List.foldl_nil]
    rw [toggleAt_getElem?]
    by_cases hjm : j = m
    · subst hjm
      simp [ih, Nat.lt_succ_self, Nat.lt_irrefl]
    · rw [if_neg hjm, ih]
      by_cases hlt : j < m
      · simp [hlt, Nat.lt_succ_of_lt hlt]
      · have : ¬ j < m + 1 := fun hc => hjm (Nat.le_antisymm (Nat.le_of_lt_succ hc) (Nat.le_of_not_lt hlt))
        simp [hlt, this]

/-- The `forEach`-of-`toggleItem` loop is pointwise `flipDone`. -/
theorem foldRange_toggleAt_eq_map (items : List Item) :
    (List.range items.length).foldl toggleAt items = items.map flipDone := by
  apply List.ext_getElem?
  intro j
  rw [foldRange_toggleAt_getElem?]
  by_cases hj : j < items.length
  · simp [hj, List.getElem?_map]
  · simp [hj, List.getElem?_map, List.getElem?_eq_none (Nat.le_of_not_lt hj)]

theorem countItems_cond_iff (items : List Item) :
    ((countItems items).numItems = (countItems items).numDoneItems
        ∨ (countItems items).numDoneItems = 0)
      ↔ sameDoneOrNoneDone items = true := by
  have hnum : (countItems items).numItems = items.length := rfl
  rw [hnum, countItems_numDone, sameDoneOrNoneDone]
  constructor
  · rintro (h | h)
    · have : ∀ a ∈ items, a.done = true := List.countP_eq_length.mp h.symm
      simp [List.all_eq_true.mpr this]
    · have : ∀ a ∈ items, ¬ a.done = true := List.countP_eq_zero.mp h
      have hall : items.all (fun it => !it.done) = true :=
        List.all_eq_true.mpr (fun a ha => by simpa using this a ha)
      simp [hall]
  · intro h
    rcases Bool.or_eq_true_iff.mp h with h' | hnone
    · rcases Bool.or_eq_true_iff.mp h' with hall | hnone
      · exact Or.inl (List.countP_eq_length.mpr (List.all_eq_true.mp hall)).symm
      · refine Or.inr (List.countP_eq_zero.mpr ?_)
        intro a ha
        simpa using List.all_eq_true.mp hnone a ha
    · refine Or.inr (List.countP_eq_zero.mpr ?_)
      intro a ha
      simpa using List.all_eq_true.mp hnone a ha

/-- Rewriting `toggleAllItems` by branch: toggle-all when the condition holds,
force-done otherwise. -/
theorem toggleAllItems_eq (items : List Item) :
    toggleAllItems items =
      if sameDoneOrNoneDone items then items.map flipDone
      else items.map (fun it => { it with done := true }) := by
  unfold toggleAllItems
  by_cases h : (countItems items).numItems = (countItems items).numDoneItems
      ∨ (countItems items).numDoneItems = 0
  · rw [if_pos h, if_pos ((countItems_cond_iff items).mp h)]
    exact foldRange_toggleAt_eq_map items
  · rw [if_neg h, if_neg (fun hb => h ((countItems_cond_iff items).mpr hb))]
    apply List.map_congr_left
    intro it _
    cases it with
    | mk n d => cases d <;> simp

/-- C1: `toggleAllItems` follows the branch policy: if every item has the same
done flag or no item is done, it flips each item's done flag individually;
otherwise (mixed state with at least one done item) it sets every item's done
flag to true.  In particular `[done,done]` becomes `[undone,undone]`,
`[done,undone]` becomes `[done,done]`, and `[undone,undone]` becomes
`[done,done]`. -/
theorem toggleAllItems_branch_policy (items : List Item) :
    (toggleAllItems items =
        if sameDoneOrNoneDone items then items.map flipDone
        else items.map (fun it => { it with done := true }))
    ∧ toggleAllItems [⟨"a", true⟩, ⟨"b", true⟩] = [⟨"a", false⟩, ⟨"b", false⟩]
    ∧ toggleAllItems [⟨"a", true⟩, ⟨"b", false⟩] = [⟨"a", true⟩, ⟨"b", true⟩]
    ∧ toggleAllItems [⟨"a", false⟩, ⟨"b", false⟩] = [⟨"a", true⟩, ⟨"b", true⟩] := by
  refine ⟨toggleAllItems_eq items, by decide, by decide, by decide⟩

/-- C10: `toggleAllItems` preserves the length of the list and the name of
every item at its position; only done flags change. -/
theorem toggleAllItems_frame (items : List Item) :
    (toggleAllItems items).length = items.length
    ∧ ∀ j : Nat, ((toggleAllItems items)[j]?).map Item.name = (items[j]?).map Item.name := by
  rw [toggleAllItems_eq]
  by_cases h : sameDoneOrNoneDone items
  · rw [if_pos h]
    refine ⟨by simp, fun j => ?_⟩
    cases hj : items[j]? <;> simp [List.getElem?_map, hj, flipDone]
  · rw [if_neg h]
    refine ⟨by simp, fun j => ?_⟩
    cases hj : items[j]? <;> simp [List.getElem?_map, hj]

theorem deleteItem_nat_lt (items : List Item) (i : Nat) (h : i < items.length) :
    deleteItem items i = items.take i ++ items.drop (i + 1) := by
  unfold deleteItem
  have h0 : ¬ ((i : Int) < 0) := by exact_mod_cast Int.not_lt.mpr (Int.ofNat_nonneg i)
  simp [h0, Int.toNat_ofNat, Nat.min_eq_left (Nat.le_of_lt h)]

theorem deleteItem_ge_length (items : List Item) (index : Int)
    (h : (items.length : Int) ≤ index) :
    deleteItem items index = items := by
  unfold deleteItem
  have h0 : ¬ (index < 0) :=
    Int.not_lt.mpr (le_trans (Int.ofNat_nonneg items.length) h)
  have hge : items.length ≤ index.toNat := by
    have := Int.toNat_le_toNat h
    simpa using this
  simp [h0, Nat.min_eq_right hge, List.drop_eq_nil_of_le (Nat.le_succ_of_le hge)]

/-- C5: for every in-bounds index `i`, `deleteItem i` decreases the length by
exactly one, removes the element at position `i`, keeps every earlier element
at its position, and moves every later element down by one position. -/
theorem deleteItem_in_bounds (items : List Item) (i : Nat) (h : i < items.length) :
    (deleteItem items i).length = items.length - 1
    ∧ (∀ j : Nat, j < i → (deleteItem items i)[j]? = items[j]?)
    ∧ (∀ j : Nat, i ≤ j → (deleteItem items i)[j]? = items[j + 1]?) := by
  rw [deleteItem_nat_lt items i h]
  refine ⟨?_, ?_, ?_⟩
  · simp [List.length_take, List.length_drop, Nat.min_eq_left (Nat.le_of_lt h)]
    omega
  · intro j hj
    have hjt : j < (items.take i).length := by
      simp [List.length_take]; omega
    rw [List.getElem?_append, if_pos hjt, List.getElem?_take, if_pos hj]
  · intro j hj
    have hjt : ¬ j < (items.take i).length := by
      simp [List.length_take]; omega
    rw [List.getElem?_append, if_neg hjt, List.getElem?_drop]
    congr 1
    simp [List.length_take] at hjt ⊢
    omega

/-- Witness for C5 at a concrete input: deleting index 1 of a 3-item list. -/
theorem deleteItem_in_bounds_witness :
    (1 < ([⟨"a", false⟩, ⟨"b", true⟩, ⟨"c", false⟩] : List Item).length)
    ∧ (deleteItem [⟨"a", false⟩, ⟨"b", true⟩, ⟨"c", false⟩] 1).length = 3 - 1
    ∧ (deleteItem [⟨"a", false⟩, ⟨"b", true⟩, ⟨"c", false⟩] 1)[0]?
        = ([⟨"a", false⟩, ⟨"b", true⟩, ⟨"c", false⟩] : List Item)[0]?
    ∧ (deleteItem [⟨"a", false⟩, ⟨"b", true⟩, ⟨"c", false⟩] 1)[1]?
        = ([⟨"a", false⟩, ⟨"b", true⟩, ⟨"c", false⟩] : List Item)[1 + 1]? := by
  have h := deleteItem_in_bounds [⟨"a", false⟩, ⟨"b", true⟩, ⟨"c", false⟩] 1 (by decide)
  exact ⟨by decide, h.1, h.2.1 0 (by decide), h.2.2 1 (by decide)⟩

/-- C6: `createItem name` appends `{name, done:false}` at the end, for every
name including the empty string; the length grows by one and every existing
element is unchanged at its position. -/
theorem createItem_appends (items : List Item) (name : String) :
    createItem items name = items ++ [{ name := name, done := false }]
    ∧ (createItem items name).length = items.length + 1
    ∧ (∀ j : Nat, (createItem items name)[j]? =
        if j < items.length then items[j]?
        else if j = items.length then some { name := name, done := false }
        else none) := by
  refine ⟨rfl, by simp [createItem], fun j => ?_⟩
  rw [createItem, List.getElem?_append]
  by_cases hj : j < items.length
  · rw [if_pos hj, if_pos hj]
  · rw [if_neg hj, if_neg hj]
    by_cases he : j = items.length
    · subst he; simp
    · have : 1 ≤ j - items.length := by omega
      rw [if_neg he]
      simp [List.getElem?_eq_none, this]

theorem toggleItem_nat_lt (items : List Item) (i : Nat) (h : i < items.length) :
    toggleItem items i = some (items.set i (flipDone (items.get ⟨i, h⟩))) := by
  unfold toggleItem
  have hc : 0 ≤ (i : Int) ∧ ((i : Int)).toNat < items.length := by
    constructor
    · exact_mod_cast Int.ofNat_nonneg i
    · simpa using h
  rw [dif_pos hc]
  rfl

/-- C7: for every in-bounds index `i`, `toggleItem i` flips exactly the done
flag of the item at position `i` — its name and every other item are
unchanged — and applying it twice returns the original list (involution). -/
theorem toggleItem_flips_involution (items : List Item) (i : Nat) (h : i < items.length) :
    ∃ l : List Item, toggleItem items i = some l
      ∧ l.length = items.length
      ∧ (∀ j : Nat, j ≠ i → l[j]? = items[j]?)
      ∧ (l[i]?).map Item.name = (items[i]?).map Item.name
      ∧ (l[i]?).map Item.done = (items[i]?).map (fun it => !it.done)
      ∧ toggleItem l i = some items := by
  let it := items.get ⟨i, h⟩
  have hit : items[i]? = some it := List.getElem?_eq_getElem h
  refine ⟨items.set i (flipDone it), toggleItem_nat_lt items i h, by simp, ?_, ?_, ?_, ?_⟩
  · intro j hj
    exact List.getElem?_set_ne (fun he => hj he.symm)
  · rw [List.getElem?_set_self (by simpa using h), hit]
    rfl
  · rw [List.getElem?_set_self (by simpa using h), hit]
    rfl
  · have hlen : (items.set i (flipDone it)).length = items.length := by simp
    rw [toggleItem_nat_lt _ i (hlen ▸ h)]
    congr 1
    apply List.ext_getElem?
    intro j
    by_cases hj : j = i
    · subst hj
      have hget : (items.set j (flipDone it)).get ⟨j, hlen ▸ h⟩ = flipDone it := by
        have := List.getElem?_set_self (l := items) (i := j) (a := flipDone it) (by simpa using h)
        have hg : (items.set j (flipDone it))[j]? = some ((items.set j (flipDone it)).get ⟨j, hlen ▸ h⟩) :=
          List.getElem?_eq_getElem (hlen ▸ h)
        rw [hg] at this
        exact Option.some.inj this
      rw [hget, List.set_set, List.getElem?_set_self (by simpa using h), hit]
      cases hi : it with
      | mk n d => simp [flipDone]
    · rw [List.getElem?_set_ne (fun he => hj he.symm),
        List.getElem?_set_ne (fun he => hj he.symm)]

/-- Witness for C7: toggling index 0 of a concrete one-item list. -/
theorem toggleItem_flips_involution_witness :
    (0 < ([⟨"a", true⟩] : List Item).length)
    ∧ ∃ l : List Item, toggleItem [⟨"a", true⟩] 0 = some l
      ∧ l.length = ([⟨"a", true⟩] : List Item).length
      ∧ (∀ j : Nat, j ≠ 0 → l[j]? = ([⟨"a", true⟩] : List Item)[j]?)
      ∧ (l[0]?).map Item.name = (([⟨"a", true⟩] : List Item)[0]?).map Item.name
      ∧ (l[0]?).map Item.done = (([⟨"a", true⟩] : List Item)[0]?).map (fun it => !it.done)
      ∧ toggleItem l 0 = some [⟨"a", true⟩] :=
  ⟨by decide, toggleItem_flips_involution [⟨"a", true⟩] 0 (by decide)⟩

/-- C8: `countItems` returns the length of the list and the number of done
items, for every list state; on the empty list it returns `{0, 0}`.  (The
embedding is a pure function of the list, matching the read-only `forEach`
scan in the source: the list itself is not modified.) -/
theorem countItems_spec (items : List Item) :
    (countItems items).numItems = items.length
    ∧ (countItems items).numDoneItems = (items.filter (fun it => it.done)).length
    ∧ countItems [] = { numItems := 0, numDoneItems := 0 } := by
  refine ⟨rfl, ?_, rfl⟩
  rw [countItems_numDone, List.countP_eq_length_filter]

/-- C9: `deleteItem (-1)` removes the last element of a non-empty list
(`splice` counts a negative start from the end), and `deleteItem index` with
`index ≥ length` leaves the list unchanged without any error. -/
theorem deleteItem_splice_edge_semantics (items : List Item) :
    (items ≠ [] → deleteItem items (-1) = items.dropLast)
    ∧ (∀ index : Int, (items.length : Int) ≤ index → deleteItem items index = items) := by
  constructor
  · intro hne
    have hlen : 1 ≤ items.length := List.length_pos.mpr hne
    unfold deleteItem
    have hneg : (-1 : Int) < 0 := by decide
    rw [if_pos hneg]
    have hmax : max ((items.length : Int) + (-1)) 0 = (items.length : Int) - 1 := by
      omega
    rw [hmax]
    have htn : ((items.length : Int) - 1).toNat = items.length - 1 := by
      omega
    rw [htn, List.dropLast_eq_take]
    show items.take (items.length - 1) ++ items.drop (items.length - 1 + 1)
        = items.take (items.length - 1)
    have hd : items.drop (items.length - 1 + 1) = [] := by
      apply List.drop_eq_nil_of_le
      omega
    rw [hd, List.append_nil]
  · intro index hge
    exact deleteItem_ge_length items index hge

/-- Witness for C9: on the seed-sized list `[x, y]`, `deleteItem (-1)` drops
`y`, and `deleteItem 5` is the identity. -/
theorem deleteItem_splice_edge_semantics_witness :
    (([⟨"x", true⟩, ⟨"y", false⟩] : List Item) ≠ []
      ∧ deleteItem [⟨"x", true⟩, ⟨"y", false⟩] (-1)
          = ([⟨"x", true⟩, ⟨"y", false⟩] : List Item).dropLast)
    ∧ ((([⟨"x", true⟩, ⟨"y", false⟩] : List Item).length : Int) ≤ 5
      ∧ deleteItem [⟨"x", true⟩, ⟨"y", false⟩] 5 = [⟨"x", true⟩, ⟨"y", false⟩]) :=
  ⟨⟨by decide, (deleteItem_splice_edge_semantics [⟨"x", true⟩, ⟨"y", false⟩]).1 (by decide)⟩,
    ⟨by decide, (deleteItem_splice_edge_semantics [⟨"x", true⟩, ⟨"y", false⟩]).2 5 (by decide)⟩⟩

/-- Counterexample to C4: at the out-of-bounds index 5 of a one-item list,
`deleteItem` does NOT fail with a runtime fault — `splice` never throws — it
silently returns the list unchanged (while `changeItemName` and `toggleItem`
do fault there). -/
theorem deleteItem_oob_no_fault :
    deleteItem [⟨"a", false⟩] 5 = [⟨"a", false⟩]
    ∧ changeItemName [⟨"a", false⟩] 5 "b" = none
    ∧ toggleItem [⟨"a", false⟩] 5 = none := by
  refine ⟨?_, ?_, ?_⟩ <;> decide

/-- C4 (amended): for every index outside the current bounds,
`changeItemName` and `toggleItem` fail with a runtime fault (dereferencing a
non-existent position), while `deleteItem` raises no fault: for an index at
or beyond the length it silently leaves the list unchanged. -/
theorem model_oob_behavior (items : List Item) (index : Int)
    (h : index < 0 ∨ (items.length : Int) ≤ index) :
    (∀ name : String, changeItemName items index name = none)
    ∧ toggleItem items index = none
    ∧ ((items.length : Int) ≤ index → deleteItem items index = items) := by
  have hc : ¬ (0 ≤ index ∧ index.toNat < items.length) := by
    rintro ⟨h0, hlt⟩
    rcases h with hneg | hge
    · omega
    · have : (index.toNat : Int) < (items.length : Int) := by exact_mod_cast hlt
      rw [Int.toNat_of_nonneg h0] at this
      omega
  refine ⟨?_, ?_, fun hge => deleteItem_ge_length items index hge⟩
  · intro name
    unfold changeItemName
    rw [dif_neg hc]
  · unfold toggleItem
    rw [dif_neg hc]

/-- Witness for C4 (amended) at a concrete input: index 5 on a one-item list. -/
theorem model_oob_behavior_witness :
    ((5 : Int) < 0 ∨ ((([⟨"a", false⟩] : List Item).length : Int) ≤ 5))
    ∧ changeItemName [⟨"a", false⟩] 5 "b" = none
    ∧ toggleItem [⟨"a", false⟩] 5 = none
    ∧ deleteItem [⟨"a", false⟩] 5 = [⟨"a", false⟩] := by
  have h := model_oob_behavior [⟨"a", false⟩] 5 (Or.inr (by decide))
  exact ⟨Or.inr (by decide), h.1 "b", h.2.1, h.2.2 (by decide)⟩

theorem foldl_cons_rev {α β : Type} (f : α → β) :
    ∀ (l : List α) (acc : List β),
      l.foldl (fun ul x => f x :: ul) acc = (l.map f).reverse ++ acc := by
  intro l
  induction l with
  | nil => intro acc; simp
  | cons x xs ih =>
    intro acc
    simp [ih, List.append_assoc]

/-- Counterexample to C2: on the two-item list `[A, B]` the displayed
sequence is `[B, A]`, not the model's array order `[A, B]`. -/
theorem displayTodoItems_order_counterexample :
    (displayTodoItems [⟨"A", false⟩, ⟨"B", true⟩]).listItems
      ≠ [renderItem 0 ⟨"A", false⟩, renderItem 1 ⟨"B", true⟩] := by
  decide

/-- C2 (amended): `displayTodoItems` iterates the model's items in array
order and prepends each newly built element, so the displayed sequence is the
REVERSE of the model's array order (same multiset of rendered items, same
length, order inverted). -/
theorem displayTodoItems_reverse_order (items : List Item) :
    (displayTodoItems items).listItems
      = (items.enum.map (fun p => renderItem p.1 p.2)).reverse
    ∧ (displayTodoItems items).listItems.length = items.length
    ∧ (displayTodoItems items).toggleAllVisible = (items.length > 0 : Bool) := by
  refine ⟨?_, ?_, ?_⟩
  · show items.enum.foldl (fun ul p => renderItem p.1 p.2 :: ul) []
        = (items.enum.map (fun p => renderItem p.1 p.2)).reverse
    rw [foldl_cons_rev (fun p : Nat × Item => renderItem p.1 p.2) items.enum []]
    simp
  · show (items.enum.foldl (fun ul p => renderItem p.1 p.2 :: ul) []).length = items.length
    rw [foldl_cons_rev (fun p : Nat × Item => renderItem p.1 p.2) items.enum []]
    simp
  · rcases items with _ | _ <;> rfl

/-- C3 evaluated on the code: `updateItemNameOnKeyUp` never commits a rename
and never reverts — for EVERY keyup event (including ENTER with non-empty
content and ESC) the model, the input value and the refresh flag are left
untouched, because `event.code` (a string such as `"Enter"`) is compared with
`===` against the numeric constants 13 and 27, which is always false. -/
theorem updateItemNameOnKeyUp_no_effect (ev : KeyUpEvent) (items : List Item) :
    updateItemNameOnKeyUp ev items = some ⟨items, ev.value, false⟩
    ∧ updateItemNameOnKeyUp ⟨"Enter", "new name", 0⟩ [⟨"old", false⟩]
        = some ⟨[⟨"old", false⟩], "new name", false⟩
    ∧ updateItemNameOnKeyUp ⟨"Escape", "draft", 0⟩ [⟨"old", false⟩]
        = some ⟨[⟨"old", false⟩], "draft", false⟩ := by
  refine ⟨?_, by decide, by decide⟩
  unfold updateItemNameOnKeyUp
  simp [strictEq, ENTER_KEY, ESC_KEY]

end Todo
